import Mathlib

/-!
Shallow embedding of the per-thread accumulation and reduction engine in
`src/USER-OMP/thr_omp.cpp` (class `ThrOMP`), together with theorems checking
the specification's claims about it.

Modelling conventions:
* C `double` values become `ℝ`; machine integers used as counts/indices
  become `ℕ`; C `int` flags become `Bool`.
* The per-thread arrays (`eng_vdwl_thr`, `virial_thr`, `eatom_thr`,
  `vatom_thr`, ...) become total functions out of `ℕ` (and `Fin 6` for the
  six virial components).  The sizes actually allocated by `memory->grow`
  are tracked explicitly in the fields `eatomRows` / `vatomRows` (rows per
  thread), so that out-of-bounds accesses can be observed through
  `Option`-returning accessors.
* Straight-line mutation is explicit state passing; loops become folds over
  `List.range` / `List.range'`.
-/

namespace ThrOMP

/-- Interaction style selector stored in `thr_style` (constructor argument);
the source switches on `PAIR` vs `DIHEDRAL` when choosing the newton flag. -/
inductive Style where
  | PAIR : Style
  | DIHEDRAL : Style

/-- The per-thread accumulator state owned by a `ThrOMP` object:
the fixed per-thread scalars and virials, the growable per-atom arrays, and
their high-water marks `maxeatom_thr` / `maxvatom_thr`.  `eatomRows` and
`vatomRows` record how many rows per thread `memory->grow` has actually
allocated for `eatom_thr` resp. `vatom_thr` (0 before the first grow). -/
structure ThrState where
  eng_vdwl_thr : ℕ → ℝ
  eng_coul_thr : ℕ → ℝ
  eng_bond_thr : ℕ → ℝ
  virial_thr   : ℕ → Fin 6 → ℝ
  eatom_thr    : ℕ → ℕ → ℝ
  vatom_thr    : ℕ → ℕ → Fin 6 → ℝ
  maxeatom_thr : ℕ
  maxvatom_thr : ℕ
  eatomRows    : ℕ
  vatomRows    : ℕ

/-- A freshly constructed `ThrOMP` object: `maxeatom_thr = maxvatom_thr = 0`,
no per-atom storage allocated yet (contents of the fixed arrays are modelled
as 0). -/
def freshThr : ThrState :=
  { eng_vdwl_thr := fun _ => 0
    eng_coul_thr := fun _ => 0
    eng_bond_thr := fun _ => 0
    virial_thr   := fun _ _ => 0
    eatom_thr    := fun _ _ => 0
    vatom_thr    := fun _ _ _ => 0
    maxeatom_thr := 0
    maxvatom_thr := 0
    eatomRows    := 0
    vatomRows    := 0 }

/-- The zeroing extent `ntotal` of `ev_setup_thr` / `ev_reduce_thr`:
`nlocal + nghost` when the style-appropriate newton flag is set
(`force->newton` for `PAIR`, `force->newton_bond` for `DIHEDRAL`),
else `nlocal`. -/
def ntotalOf (style : Style) (newton newton_bond : Bool) (nlocal nghost : ℕ) : ℕ :=
  if (match style with
      | Style.PAIR => newton
      | Style.DIHEDRAL => newton_bond) = true
  then nlocal + nghost else nlocal

/-- `ThrOMP::ev_setup_thr`: grow the per-atom arrays if necessary
(note the source grows `vatom_thr` with extent `maxeatom_thr`), then zero
the requested per-thread accumulators for every thread slot, the per-atom
ones up to `ntotal`.  `nmax` is `atom->nmax`, `nthreads` is
`comm->nthreads`. -/
def ev_setup_thr (style : Style) (nthreads nmax nlocal nghost : ℕ)
    (newton newton_bond : Bool)
    (eflag_global vflag_global eflag_atom vflag_atom : Bool)
    (s : ThrState) : ThrState :=
  let s1 := if eflag_atom = true ∧ s.maxeatom_thr < nmax then
      { s with maxeatom_thr := nmax, eatomRows := nmax } else s
  let s2 := if vflag_atom = true ∧ s1.maxvatom_thr < nmax then
      { s1 with maxvatom_thr := nmax, vatomRows := s1.maxeatom_thr } else s1
  let ntotal := ntotalOf style newton newton_bond nlocal nghost
  { s2 with
    eng_vdwl_thr := fun t =>
      if t < nthreads ∧ eflag_global = true then 0 else s2.eng_vdwl_thr t
    eng_coul_thr := fun t =>
      if t < nthreads ∧ eflag_global = true then 0 else s2.eng_coul_thr t
    eng_bond_thr := fun t =>
      if t < nthreads ∧ eflag_global = true then 0 else s2.eng_bond_thr t
    virial_thr := fun t c =>
      if t < nthreads ∧ vflag_global = true then 0 else s2.virial_thr t c
    eatom_thr := fun t i =>
      if t < nthreads ∧ eflag_atom = true ∧ i < ntotal then 0 else s2.eatom_thr t i
    vatom_thr := fun t i c =>
      if t < nthreads ∧ vflag_atom = true ∧ i < ntotal then 0 else s2.vatom_thr t i c }

/-- Bounds-checked read of `eatom_thr[t][i]`: `none` when row `i` lies
outside the storage allocated for each thread. -/
def eatomGet (s : ThrState) (t i : ℕ) : Option ℝ :=
  if i < s.eatomRows then some (s.eatom_thr t i) else none

/-- Bounds-checked read of `vatom_thr[t][i][c]`: `none` when row `i` lies
outside the storage allocated for each thread. -/
def vatomGet (s : ThrState) (t i : ℕ) (c : Fin 6) : Option ℝ :=
  if i < s.vatomRows then some (s.vatom_thr t i c) else none

/-- `sizeof(double)` on the platforms the source targets. -/
def sizeofDouble : ℕ := 8

/-- `ThrOMP::memory_usage_thr`: the byte count the source reports,
`nthreads*(3+7)*sizeof(double) + nthreads*maxeatom_thr*sizeof(double)
 + nthreads*maxvatom_thr*6*sizeof(double)`. -/
def memory_usage_thr (nthreads maxeatom_thr maxvatom_thr : ℕ) : ℕ :=
  nthreads * (3 + 7) * sizeofDouble
    + nthreads * maxeatom_thr * sizeofDouble
    + nthreads * maxvatom_thr * 6 * sizeofDouble

/-- Result of `ThrOMP::loop_setup_thr`: the loop range `[ifrom, ito)`, the
thread id, and the offset (in rows) of the returned private force base
pointer from `f` (the source returns `f + nall*tid`). -/
structure LoopSetup where
  ifrom : ℕ
  ito   : ℕ
  tid   : ℕ
  foff  : ℕ
deriving DecidableEq

/-- `ThrOMP::loop_setup_thr` (the `_OPENMP` compilation, with
`omp_get_thread_num()` supplied as the argument `tid`): for `nthreads > 1`
the chunk is `idelta = 1 + inum/nthreads`, the range is
`[tid*idelta, min inum (tid*idelta + idelta))` and the private base is
`f + nall*tid`; otherwise `tid = 0`, the range is `[0, inum)` and `f` is
returned unchanged. -/
def loop_setup_thr (inum nall nthreads tid : ℕ) : LoopSetup :=
  if 1 < nthreads then
    let idelta := 1 + inum / nthreads
    let ifrom := tid * idelta
    let ito0 := ifrom + idelta
    let ito := if inum < ito0 then inum else ito0
    ⟨ifrom, ito, tid, nall * tid⟩
  else
    ⟨0, inum, 0, 0⟩

/-- C1: on a fresh object, a call to `ev_setup_thr` with `vflag_atom` set,
`eflag_atom` unset and `atom->nmax = 4` records the new virial high-water
mark `maxvatom_thr = 4` but grows `vatom_thr` to only `maxeatom_thr = 0`
rows per thread, not the `nmax = 4` rows the claim requires: the grow
extent is taken from `maxeatom_thr`, contradicting the claim. -/
theorem ev_setup_thr_vatom_grow_bug :
    (ev_setup_thr Style.PAIR 2 4 2 0 true true false false false true
        freshThr).maxvatom_thr = 4
    ∧ (ev_setup_thr Style.PAIR 2 4 2 0 true true false false false true
        freshThr).vatomRows = 0
    ∧ (0 : ℕ) ≠ 4 := by
  refine ⟨rfl, rfl, by decide⟩

/-- C2: under the spec's calling protocol (setup called with the step's
flags, `ntotal = 2 ≤ nmax = 4`), requesting only the per-atom virial on a
fresh object leaves `vatom_thr` with 0 allocated rows, so the access
`vatom_thr[tid][0]` — which `ev_tally_thr` writes for an owned atom `i = 0 <
ntotal` when `vflag_atom` is set — is outside allocated storage: the
`Option`-returning accessor yields `none`. -/
theorem ev_tally_thr_vatom_access_oob :
    (2 : ℕ) ≤ 4
    ∧ (0 : ℕ) < 2
    ∧ vatomGet (ev_setup_thr Style.PAIR 2 4 2 0 true true false false false true
        freshThr) 0 0 0 = none := by
  refine ⟨by decide, by decide, rfl⟩

/-- C10 counterexample: with one thread and no per-atom storage the code
returns `(3+7)*8 = 80` bytes, not the `(3+6)*8 = 72` bytes that
"3 energy scalars + 6 virial components" would give. -/
theorem memory_usage_thr_cex :
    memory_usage_thr 1 0 0 = 80
    ∧ 1 * ((3 + 6) * 8) = 72
    ∧ (80 : ℕ) ≠ 72 := by
  refine ⟨by decide, by decide, by decide⟩

/-- C10 (amended): `memory_usage_thr` returns
`nthreads*(3+7)*sizeof(double)` for the fixed per-thread storage (ten
doubles per thread, one more than the nine the constructor allocates), plus
`nthreads*maxeatom_thr*sizeof(double)` for the per-atom energy capacity,
plus `nthreads*maxvatom_thr*6*sizeof(double)` for the per-atom virial
capacity. -/
theorem memory_usage_thr_bytes (nthreads maxe maxv : ℕ) :
    memory_usage_thr nthreads maxe maxv =
      nthreads * 10 * 8 + nthreads * maxe * 8 + nthreads * maxv * 6 * 8 := by
  simp [memory_usage_thr, sizeofDouble]

/-- C6 counterexample: for `inum = 4`, `nthreads = 2` the claimed chunk
`ceil(inum/nthreads) = 2` would start thread 1's range at `1*2 = 2`, but the
code's chunk is `1 + 4/2 = 3`, so thread 1's range starts at 3. -/
theorem loop_setup_thr_ceil_cex :
    (4 + 2 - 1) / 2 = 2
    ∧ (loop_setup_thr 4 8 2 1).ifrom = 3
    ∧ (loop_setup_thr 4 8 2 1).ifrom ≠ 1 * ((4 + 2 - 1) / 2) := by
  refine ⟨by decide, by decide, by decide⟩

/-- The interaction count never reaches `nthreads` chunks of the code's
chunk size `1 + inum / nthreads`. -/
theorem lt_nthreads_mul_chunk (inum nthreads : ℕ) (h : 0 < nthreads) :
    inum < nthreads * (1 + inum / nthreads) := by
  have hd := Nat.div_add_mod inum nthreads
  have hm : inum % nthreads < nthreads := Nat.mod_lt _ h
  rw [Nat.mul_add, Nat.mul_one]
  omega

/-- Projections of `loop_setup_thr` in the multi-thread path. -/
theorem loop_setup_thr_proj (inum nall nthreads tid : ℕ) (h : 1 < nthreads) :
    (loop_setup_thr inum nall nthreads tid).ifrom = tid * (1 + inum / nthreads)
    ∧ (loop_setup_thr inum nall nthreads tid).ito
        = min inum (tid * (1 + inum / nthreads) + (1 + inum / nthreads))
    ∧ (loop_setup_thr inum nall nthreads tid).tid = tid
    ∧ (loop_setup_thr inum nall nthreads tid).foff = nall * tid := by
  unfold loop_setup_thr
  rw [if_pos h]
  refine ⟨rfl, ?_, rfl, rfl⟩
  show (if inum < tid * (1 + inum / nthreads) + (1 + inum / nthreads) then inum
        else tid * (1 + inum / nthreads) + (1 + inum / nthreads))
      = min inum (tid * (1 + inum / nthreads) + (1 + inum / nthreads))
  split <;> omega

/-- C6 (amended): in the multi-thread path the chunk size is
`1 + inum / nthreads` (floor division plus one, which equals
`ceil(inum/nthreads)` only when `nthreads` does not divide `inum`), the
calling thread's range is `[tid*chunk, min inum (tid*chunk + chunk))`, and
the private force base is offset `nall * tid` rows from `f`; in the
single-thread path `tid = 0`, the range is `[0, inum)` and `f` is returned
with no offset. -/
theorem loop_setup_thr_ranges (inum nall nthreads tid : ℕ) (h : 1 < nthreads) :
    loop_setup_thr inum nall nthreads tid =
      ⟨tid * (1 + inum / nthreads),
       min inum (tid * (1 + inum / nthreads) + (1 + inum / nthreads)),
       tid, nall * tid⟩
    ∧ loop_setup_thr inum nall 1 tid = ⟨0, inum, 0, 0⟩ := by
  obtain ⟨h1, h2, h3, h4⟩ := loop_setup_thr_proj inum nall nthreads tid h
  exact ⟨by cases hls : loop_setup_thr inum nall nthreads tid; simp_all, rfl⟩

/-- C6 witness: the amended range formula at `inum = 4`, `nall = 8`,
`nthreads = 2`, `tid = 1`. -/
theorem loop_setup_thr_ranges_witness :
    loop_setup_thr 4 8 2 1 = ⟨1 * (1 + 4 / 2), min 4 (1 * (1 + 4 / 2) + (1 + 4 / 2)), 1, 8 * 1⟩
    ∧ loop_setup_thr 4 8 1 1 = ⟨0, 4, 0, 0⟩ :=
  loop_setup_thr_ranges 4 8 2 1 (by decide)

/-- C7: the ranges produced by `loop_setup_thr` for the thread ids
`0 .. nthreads-1` exactly partition `[0, inum)`: every range is contained in
`[0, inum)`, every `x < inum` is covered by the range of some
`tid < nthreads`, and ranges of distinct thread ids are disjoint (each range
being a contiguous interval by construction). -/
theorem loop_setup_thr_partition (inum nall nthreads tid tid2 x : ℕ)
    (hn : 1 ≤ nthreads) :
    (tid < nthreads → (loop_setup_thr inum nall nthreads tid).ifrom ≤ x →
      x < (loop_setup_thr inum nall nthreads tid).ito → x < inum)
    ∧ (x < inum → ∃ t, t < nthreads
        ∧ (loop_setup_thr inum nall nthreads t).ifrom ≤ x
        ∧ x < (loop_setup_thr inum nall nthreads t).ito)
    ∧ (tid < nthreads → tid2 < nthreads → tid ≠ tid2 →
        ¬((loop_setup_thr inum nall nthreads tid).ifrom ≤ x
          ∧ x < (loop_setup_thr inum nall nthreads tid).ito
          ∧ (loop_setup_thr inum nall nthreads tid2).ifrom ≤ x
          ∧ x < (loop_setup_thr inum nall nthreads tid2).ito)) := by
  rcases Nat.lt_or_ge 1 nthreads with h1 | h1
  · -- multi-thread path
    have hproj : ∀ t, (loop_setup_thr inum nall nthreads t).ifrom
          = t * (1 + inum / nthreads)
        ∧ (loop_setup_thr inum nall nthreads t).ito
          = min inum (t * (1 + inum / nthreads) + (1 + inum / nthreads)) :=
      fun t => ⟨(loop_setup_thr_proj inum nall nthreads t h1).1,
                (loop_setup_thr_proj inum nall nthreads t h1).2.1⟩
    refine ⟨?_, ?_, ?_⟩
    · intro _ hlo hhi
      rw [(hproj tid).2] at hhi
      omega
    · intro hx
      refine ⟨x / (1 + inum / nthreads), ?_, ?_, ?_⟩
      · have hb := lt_nthreads_mul_chunk inum nthreads (by omega)
        exact (Nat.div_lt_iff_lt_mul (Nat.le_add_right 1 _)).mpr (by omega)
      · rw [(hproj _).1]
        exact Nat.div_mul_le_self x (1 + inum / nthreads)
      · rw [(hproj _).2]
        have hd := Nat.div_add_mod x (1 + inum / nthreads)
        have hm : x % (1 + inum / nthreads) < 1 + inum / nthreads :=
          Nat.mod_lt _ (Nat.le_add_right 1 _)
        have hc : x < x / (1 + inum / nthreads) * (1 + inum / nthreads)
            + (1 + inum / nthreads) := by
          rw [Nat.mul_comm]
          omega
        omega
    · intro ht ht2 hne hmem
      obtain ⟨hlo, hhi, hlo2, hhi2⟩ := hmem
      rw [(hproj tid).1] at hlo
      rw [(hproj tid).2] at hhi
      rw [(hproj tid2).1] at hlo2
      rw [(hproj tid2).2] at hhi2
      rcases Nat.lt_or_ge tid tid2 with hlt | hge
      · have : (tid + 1) * (1 + inum / nthreads)
            ≤ tid2 * (1 + inum / nthreads) :=
          Nat.mul_le_mul_right _ hlt
        rw [Nat.succ_mul] at this
        omega
      · have hlt2 : tid2 < tid := by omega
        have : (tid2 + 1) * (1 + inum / nthreads)
            ≤ tid * (1 + inum / nthreads) :=
          Nat.mul_le_mul_right _ hlt2
        rw [Nat.succ_mul] at this
        omega
  · -- nthreads = 1
    have h1' : nthreads = 1 := by omega
    subst h1'
    refine ⟨?_, ?_, ?_⟩
    · intro _ hlo hhi
      simpa [loop_setup_thr] using hhi
    · intro hx
      exact ⟨0, by decide, by simp [loop_setup_thr], by simpa [loop_setup_thr] using hx⟩
    · intro ht ht2 hne
      omega

/-- C7 witness: the partition properties at `inum = 5`, `nall = 7`,
`nthreads = 2`, `tid = 0`, `tid2 = 1`, `x = 3`. -/
theorem loop_setup_thr_partition_witness :
    (0 < 2 → (loop_setup_thr 5 7 2 0).ifrom ≤ 3 →
      3 < (loop_setup_thr 5 7 2 0).ito → 3 < 5)
    ∧ (3 < 5 → ∃ t, t < 2
        ∧ (loop_setup_thr 5 7 2 t).ifrom ≤ 3
        ∧ 3 < (loop_setup_thr 5 7 2 t).ito)
    ∧ (0 < 2 → 1 < 2 → 0 ≠ 1 →
        ¬((loop_setup_thr 5 7 2 0).ifrom ≤ 3
          ∧ 3 < (loop_setup_thr 5 7 2 0).ito
          ∧ (loop_setup_thr 5 7 2 1).ifrom ≤ 3
          ∧ 3 < (loop_setup_thr 5 7 2 1).ito)) :=
  loop_setup_thr_partition 5 7 2 0 1 3 (by decide)

/-- Update a doubly indexed per-thread array at thread `t`, row `i`. -/
def upd2 {α : Type} (g : ℕ → ℕ → α) (t i : ℕ) (x : α) : ℕ → ℕ → α :=
  Function.update g t (Function.update (g t) i x)

/-- The six virial components `v[0..5]` computed by `ev_tally_thr`:
`fpair` times the products of the displacement components, in the order
`(xx, yy, zz, xy, xz, yz)`. -/
def pairVirial (fpair delx dely delz : ℝ) (c : Fin 6) : ℝ :=
  if c.val = 0 then delx * delx * fpair
  else if c.val = 1 then dely * dely * fpair
  else if c.val = 2 then delz * delz * fpair
  else if c.val = 3 then delx * dely * fpair
  else if c.val = 4 then delx * delz * fpair
  else dely * delz * fpair

/-- `eng_vdwl_thr[tid] += dv; eng_coul_thr[tid] += dc;` -/
def addEng (tid : ℕ) (dv dc : ℝ) (s : ThrState) : ThrState :=
  { s with
    eng_vdwl_thr := Function.update s.eng_vdwl_thr tid (s.eng_vdwl_thr tid + dv)
    eng_coul_thr := Function.update s.eng_coul_thr tid (s.eng_coul_thr tid + dc) }

/-- `virial_thr[tid][c] += w[c]` for the six components `c`. -/
def addVirialRow (tid : ℕ) (w : Fin 6 → ℝ) (s : ThrState) : ThrState :=
  { s with
    virial_thr := Function.update s.virial_thr tid (fun c => s.virial_thr tid c + w c) }

/-- `eatom_thr[tid][i] += e;` -/
def addEatom (tid i : ℕ) (e : ℝ) (s : ThrState) : ThrState :=
  { s with eatom_thr := upd2 s.eatom_thr tid i (s.eatom_thr tid i + e) }

/-- `vatom_thr[tid][i][c] += w[c]` for the six components `c`. -/
def addVatom (tid i : ℕ) (w : Fin 6 → ℝ) (s : ThrState) : ThrState :=
  { s with vatom_thr := upd2 s.vatom_thr tid i (fun c => s.vatom_thr tid i c + w c) }

/-- The `eflag_either` section of `ThrOMP::ev_tally_thr`: global energy
tally (full under `newton_pair`, else pre-halved once per owned endpoint)
followed by the per-atom energy tally. -/
def ev_tally_energy (i j nlocal : ℕ)
    (newton_pair eflag_either eflag_global eflag_atom : Bool)
    (evdwl ecoul : ℝ) (tid : ℕ) (s : ThrState) : ThrState :=
  if eflag_either = true then
    let sG :=
      if eflag_global = true then
        if newton_pair = true then addEng tid evdwl ecoul s
        else
          let evdwlhalf := 0.5 * evdwl
          let ecoulhalf := 0.5 * ecoul
          let sI := if i < nlocal then addEng tid evdwlhalf ecoulhalf s else s
          if j < nlocal then addEng tid evdwlhalf ecoulhalf sI else sI
      else s
    if eflag_atom = true then
      let epairhalf := 0.5 * (evdwl + ecoul)
      let sA := if newton_pair = true ∨ i < nlocal then addEatom tid i epairhalf sG else sG
      if newton_pair = true ∨ j < nlocal then addEatom tid j epairhalf sA else sA
    else sG
  else s

/-- The `vflag_either` section of `ThrOMP::ev_tally_thr`: compute the six
virial components, then the global virial tally (full under `newton_pair`,
else halved once per owned endpoint) and the per-atom virial tally (halved,
per endpoint under the `newton_pair`-or-owned test). -/
def ev_tally_virial (i j nlocal : ℕ)
    (newton_pair vflag_either vflag_global vflag_atom : Bool)
    (fpair delx dely delz : ℝ) (tid : ℕ) (s : ThrState) : ThrState :=
  if vflag_either = true then
    let v := pairVirial fpair delx dely delz
    let s2 :=
      if vflag_global = true then
        if newton_pair = true then addVirialRow tid v s
        else
          let sI := if i < nlocal then addVirialRow tid (fun c => 0.5 * v c) s else s
          if j < nlocal then addVirialRow tid (fun c => 0.5 * v c) sI else sI
      else s
    if vflag_atom = true then
      let sA :=
        if newton_pair = true ∨ i < nlocal then addVatom tid i (fun c => 0.5 * v c) s2 else s2
      if newton_pair = true ∨ j < nlocal then addVatom tid j (fun c => 0.5 * v c) sA else sA
    else s2
  else s

/-- `ThrOMP::ev_tally_thr`: the energy section followed by the virial
section. -/
def ev_tally_thr (i j nlocal : ℕ)
    (newton_pair eflag_either eflag_global vflag_either vflag_global
      eflag_atom vflag_atom : Bool)
    (evdwl ecoul fpair delx dely delz : ℝ) (tid : ℕ) (s : ThrState) : ThrState :=
  ev_tally_virial i j nlocal newton_pair vflag_either vflag_global vflag_atom
    fpair delx dely delz tid
    (ev_tally_energy i j nlocal newton_pair eflag_either eflag_global eflag_atom
      evdwl ecoul tid s)

/-- The virial section of the tally never touches `eng_vdwl_thr`. -/
theorem ev_tally_virial_keeps_vdwl (i j nlocal : ℕ)
    (newton_pair vflag_either vflag_global vflag_atom : Bool)
    (fpair delx dely delz : ℝ) (tid : ℕ) (s : ThrState) :
    (ev_tally_virial i j nlocal newton_pair vflag_either vflag_global vflag_atom
        fpair delx dely delz tid s).eng_vdwl_thr = s.eng_vdwl_thr := by
  unfold ev_tally_virial
  dsimp only
  split_ifs <;> rfl

/-- The virial section of the tally never touches `eng_coul_thr`. -/
theorem ev_tally_virial_keeps_coul (i j nlocal : ℕ)
    (newton_pair vflag_either vflag_global vflag_atom : Bool)
    (fpair delx dely delz : ℝ) (tid : ℕ) (s : ThrState) :
    (ev_tally_virial i j nlocal newton_pair vflag_either vflag_global vflag_atom
        fpair delx dely delz tid s).eng_coul_thr = s.eng_coul_thr := by
  unfold ev_tally_virial
  dsimp only
  split_ifs <;> rfl

/-- The virial section of the tally never touches `eatom_thr`. -/
theorem ev_tally_virial_keeps_eatom (i j nlocal : ℕ)
    (newton_pair vflag_either vflag_global vflag_atom : Bool)
    (fpair delx dely delz : ℝ) (tid : ℕ) (s : ThrState) :
    (ev_tally_virial i j nlocal newton_pair vflag_either vflag_global vflag_atom
        fpair delx dely delz tid s).eatom_thr = s.eatom_thr := by
  unfold ev_tally_virial
  dsimp only
  split_ifs <;> rfl

/-- The energy section of the tally never touches `virial_thr`. -/
theorem ev_tally_energy_keeps_virial (i j nlocal : ℕ)
    (newton_pair eflag_either eflag_global eflag_atom : Bool)
    (evdwl ecoul : ℝ) (tid : ℕ) (s : ThrState) :
    (ev_tally_energy i j nlocal newton_pair eflag_either eflag_global eflag_atom
        evdwl ecoul tid s).virial_thr = s.virial_thr := by
  unfold ev_tally_energy
  dsimp only
  split_ifs <;> rfl

/-- The energy section of the tally never touches `vatom_thr`. -/
theorem ev_tally_energy_keeps_vatom (i j nlocal : ℕ)
    (newton_pair eflag_either eflag_global eflag_atom : Bool)
    (evdwl ecoul : ℝ) (tid : ℕ) (s : ThrState) :
    (ev_tally_energy i j nlocal newton_pair eflag_either eflag_global eflag_atom
        evdwl ecoul tid s).vatom_thr = s.vatom_thr := by
  unfold ev_tally_energy
  dsimp only
  split_ifs <;> rfl

/-- C3: with `eflag_either` set, the global energy tally adds the full
`evdwl`, `ecoul` to the calling thread's accumulators when `newton_pair` is
set, regardless of ownership of `i` or `j`; otherwise each endpoint
contributes the pre-halved `0.5*evdwl`, `0.5*ecoul` only if locally owned.
With `eflag_atom` set, each endpoint's per-atom energy gains
`0.5*(evdwl+ecoul)` under the `newton_pair`-or-owned test (so a both-ghost
pair with `newton_pair` unset contributes nothing). -/
theorem ev_tally_thr_energy_policy (i j nlocal : ℕ)
    (newton_pair eflag_either eflag_global vflag_either vflag_global
      eflag_atom vflag_atom : Bool)
    (evdwl ecoul fpair delx dely delz : ℝ) (tid : ℕ) (s s2 : ThrState)
    (hE : eflag_either = true)
    (hs : s2 = ev_tally_thr i j nlocal newton_pair eflag_either eflag_global
        vflag_either vflag_global eflag_atom vflag_atom
        evdwl ecoul fpair delx dely delz tid s) :
    (eflag_global = true →
      s2.eng_vdwl_thr tid = s.eng_vdwl_thr tid +
        (if newton_pair = true then evdwl
         else (if i < nlocal then 0.5 * evdwl else 0)
              + (if j < nlocal then 0.5 * evdwl else 0))
      ∧ s2.eng_coul_thr tid = s.eng_coul_thr tid +
        (if newton_pair = true then ecoul
         else (if i < nlocal then 0.5 * ecoul else 0)
              + (if j < nlocal then 0.5 * ecoul else 0)))
    ∧ (eflag_atom = true → i ≠ j →
      s2.eatom_thr tid i = s.eatom_thr tid i +
        (if newton_pair = true ∨ i < nlocal then 0.5 * (evdwl + ecoul) else 0)
      ∧ s2.eatom_thr tid j = s.eatom_thr tid j +
        (if newton_pair = true ∨ j < nlocal then 0.5 * (evdwl + ecoul) else 0)) := by
  subst hs
  unfold ev_tally_thr
  rw [ev_tally_virial_keeps_vdwl, ev_tally_virial_keeps_coul, ev_tally_virial_keeps_eatom]
  constructor
  · intro hG
    by_cases hN : newton_pair = true <;>
    by_cases hA : eflag_atom = true <;>
    by_cases hi : i < nlocal <;>
    by_cases hj : j < nlocal <;>
      simp [ev_tally_energy, hE, hG, hN, hA, hi, hj, addEng, addEatom, upd2,
        Function.update_apply] <;>
      first
      | exact ⟨trivial, trivial⟩
      | ring1
      | (constructor <;> ring1)
  · intro hA hij
    by_cases hG : eflag_global = true <;>
    by_cases hN : newton_pair = true <;>
    by_cases hi : i < nlocal <;>
    by_cases hj : j < nlocal <;>
      simp [ev_tally_energy, hE, hG, hN, hA, hi, hj, hij, hij.symm, addEng, addEatom,
        upd2, Function.update_apply]

/-- C3 witness: the energy policy at the concrete pair `(i, j) = (0, 1)`,
`nlocal = 1` (so `i` owned, `j` ghost), `newton_pair` unset, all request
flags set, `evdwl = 2`, `ecoul = 3`, thread 0, fresh state. -/
theorem ev_tally_thr_energy_policy_witness :
    ((true : Bool) = true →
      (ev_tally_thr 0 1 1 false true true true true true true 2 3 1 1 1 1 0
          freshThr).eng_vdwl_thr 0
        = freshThr.eng_vdwl_thr 0 +
          (if (false : Bool) = true then 2
           else (if (0 : ℕ) < 1 then 0.5 * 2 else 0) + (if (1 : ℕ) < 1 then 0.5 * 2 else 0))
      ∧ (ev_tally_thr 0 1 1 false true true true true true true 2 3 1 1 1 1 0
          freshThr).eng_coul_thr 0
        = freshThr.eng_coul_thr 0 +
          (if (false : Bool) = true then 3
           else (if (0 : ℕ) < 1 then 0.5 * 3 else 0) + (if (1 : ℕ) < 1 then 0.5 * 3 else 0)))
    ∧ ((true : Bool) = true → (0 : ℕ) ≠ 1 →
      (ev_tally_thr 0 1 1 false true true true true true true 2 3 1 1 1 1 0
          freshThr).eatom_thr 0 0
        = freshThr.eatom_thr 0 0 +
          (if (false : Bool) = true ∨ (0 : ℕ) < 1 then 0.5 * (2 + 3) else 0)
      ∧ (ev_tally_thr 0 1 1 false true true true true true true 2 3 1 1 1 1 0
          freshThr).eatom_thr 0 1
        = freshThr.eatom_thr 0 1 +
          (if (false : Bool) = true ∨ (1 : ℕ) < 1 then 0.5 * (2 + 3) else 0)) :=
  ev_tally_thr_energy_policy 0 1 1 false true true true true true true 2 3 1 1 1 1 0
    freshThr _ rfl rfl

/-- C4: with `vflag_either` set, the six virial components are
`fpair * (delx*delx, dely*dely, delz*delz, delx*dely, delx*delz, dely*delz)`
in the order `(xx, yy, zz, xy, xz, yz)`, and they are tallied under the same
ownership/halving policy as the energy — `newton_pair` set: full `v` to the
thread's global virial and `0.5*v` to each endpoint's per-atom virial;
`newton_pair` unset: `0.5*v` once per locally owned endpoint — with the
formulas independent of all energy flags (the four request flags act
independently). -/
theorem ev_tally_thr_virial_policy (i j nlocal : ℕ)
    (newton_pair eflag_either eflag_global vflag_either vflag_global
      eflag_atom vflag_atom : Bool)
    (evdwl ecoul fpair delx dely delz : ℝ) (tid : ℕ) (c : Fin 6) (s s2 : ThrState)
    (hV : vflag_either = true)
    (hs : s2 = ev_tally_thr i j nlocal newton_pair eflag_either eflag_global
        vflag_either vflag_global eflag_atom vflag_atom
        evdwl ecoul fpair delx dely delz tid s) :
    (pairVirial fpair delx dely delz 0 = delx * delx * fpair
     ∧ pairVirial fpair delx dely delz 1 = dely * dely * fpair
     ∧ pairVirial fpair delx dely delz 2 = delz * delz * fpair
     ∧ pairVirial fpair delx dely delz 3 = delx * dely * fpair
     ∧ pairVirial fpair delx dely delz 4 = delx * delz * fpair
     ∧ pairVirial fpair delx dely delz 5 = dely * delz * fpair)
    ∧ (vflag_global = true →
      s2.virial_thr tid c = s.virial_thr tid c +
        (if newton_pair = true then pairVirial fpair delx dely delz c
         else (if i < nlocal then 0.5 * pairVirial fpair delx dely delz c else 0)
              + (if j < nlocal then 0.5 * pairVirial fpair delx dely delz c else 0)))
    ∧ (vflag_atom = true → i ≠ j →
      s2.vatom_thr tid i c = s.vatom_thr tid i c +
        (if newton_pair = true ∨ i < nlocal
         then 0.5 * pairVirial fpair delx dely delz c else 0)
      ∧ s2.vatom_thr tid j c = s.vatom_thr tid j c +
        (if newton_pair = true ∨ j < nlocal
         then 0.5 * pairVirial fpair delx dely delz c else 0)) := by
  subst hs
  unfold ev_tally_thr
  refine ⟨⟨rfl, rfl, rfl, rfl, rfl, rfl⟩, ?_, ?_⟩
  · intro hG
    by_cases hN : newton_pair = true <;>
    by_cases hA : vflag_atom = true <;>
    by_cases hi : i < nlocal <;>
    by_cases hj : j < nlocal <;>
      simp [ev_tally_virial, hV, hG, hN, hA, hi, hj, ev_tally_energy_keeps_virial,
        ev_tally_energy_keeps_vatom, addVirialRow, addVatom, upd2,
        Function.update_apply] <;>
      first
      | exact ⟨trivial, trivial⟩
      | ring1
  · intro hA hij
    by_cases hG : vflag_global = true <;>
    by_cases hN : newton_pair = true <;>
    by_cases hi : i < nlocal <;>
    by_cases hj : j < nlocal <;>
      simp [ev_tally_virial, hV, hG, hN, hA, hi, hj, hij, hij.symm,
        ev_tally_energy_keeps_virial, ev_tally_energy_keeps_vatom,
        addVirialRow, addVatom, upd2, Function.update_apply]

/-- C4 witness: the virial policy at the concrete pair `(i, j) = (0, 1)`,
`nlocal = 1`, `newton_pair` unset, both virial flags set with both energy
flags unset (flag independence), `fpair = 2`, displacement `(1, 2, 3)`,
component `c = 3` (xy), thread 0, fresh state. -/
theorem ev_tally_thr_virial_policy_witness :
    (pairVirial 2 1 2 3 0 = 1 * 1 * 2
     ∧ pairVirial 2 1 2 3 1 = 2 * 2 * 2
     ∧ pairVirial 2 1 2 3 2 = 3 * 3 * 2
     ∧ pairVirial 2 1 2 3 3 = 1 * 2 * 2
     ∧ pairVirial 2 1 2 3 4 = 1 * 3 * 2
     ∧ pairVirial 2 1 2 3 5 = 2 * 3 * 2)
    ∧ ((true : Bool) = true →
      (ev_tally_thr 0 1 1 false false false true true false true 0 0 2 1 2 3 0
          freshThr).virial_thr 0 3
        = freshThr.virial_thr 0 3 +
          (if (false : Bool) = true then pairVirial 2 1 2 3 3
           else (if (0 : ℕ) < 1 then 0.5 * pairVirial 2 1 2 3 3 else 0)
                + (if (1 : ℕ) < 1 then 0.5 * pairVirial 2 1 2 3 3 else 0)))
    ∧ ((true : Bool) = true → (0 : ℕ) ≠ 1 →
      (ev_tally_thr 0 1 1 false false false true true false true 0 0 2 1 2 3 0
          freshThr).vatom_thr 0 0 3
        = freshThr.vatom_thr 0 0 3 +
          (if (false : Bool) = true ∨ (0 : ℕ) < 1
           then 0.5 * pairVirial 2 1 2 3 3 else 0)
      ∧ (ev_tally_thr 0 1 1 false false false true true false true 0 0 2 1 2 3 0
          freshThr).vatom_thr 0 1 3
        = freshThr.vatom_thr 0 1 3 +
          (if (false : Bool) = true ∨ (1 : ℕ) < 1
           then 0.5 * pairVirial 2 1 2 3 3 else 0)) :=
  ev_tally_thr_virial_policy 0 1 1 false false false true true false true 0 0 2 1 2 3 0 3
    freshThr _ rfl rfl

/-- C9: `ev_setup_thr` zeroes exactly the requested accumulator categories
for every thread slot `t < nthreads` — the energy triple under
`eflag_global`, the six virial components under `vflag_global`, per-atom
energy entries below `ntotal` under `eflag_atom`, per-atom virial rows below
`ntotal` under `vflag_atom`, where `ntotal` is chosen by the
style-appropriate newton flag — and nothing else: unrequested categories,
thread slots at or beyond `nthreads`, and per-atom entries at or beyond
`ntotal` retain their prior values. -/
theorem ev_setup_thr_zeroing (style : Style) (nthreads nmax nlocal nghost : ℕ)
    (newton newton_bond : Bool) (eg vg ea va : Bool)
    (s s2 : ThrState) (t i : ℕ) (c : Fin 6)
    (hs : s2 = ev_setup_thr style nthreads nmax nlocal nghost newton newton_bond
        eg vg ea va s) :
    (t < nthreads →
      (eg = true → s2.eng_vdwl_thr t = 0 ∧ s2.eng_coul_thr t = 0 ∧ s2.eng_bond_thr t = 0)
      ∧ (vg = true → s2.virial_thr t c = 0)
      ∧ (ea = true → i < ntotalOf style newton newton_bond nlocal nghost →
          s2.eatom_thr t i = 0)
      ∧ (va = true → i < ntotalOf style newton newton_bond nlocal nghost →
          s2.vatom_thr t i c = 0))
    ∧ (eg = false → s2.eng_vdwl_thr t = s.eng_vdwl_thr t
        ∧ s2.eng_coul_thr t = s.eng_coul_thr t ∧ s2.eng_bond_thr t = s.eng_bond_thr t)
    ∧ (vg = false → s2.virial_thr t c = s.virial_thr t c)
    ∧ (ea = false → s2.eatom_thr t i = s.eatom_thr t i)
    ∧ (va = false → s2.vatom_thr t i c = s.vatom_thr t i c)
    ∧ (nthreads ≤ t →
        s2.eng_vdwl_thr t = s.eng_vdwl_thr t
        ∧ s2.eng_coul_thr t = s.eng_coul_thr t
        ∧ s2.eng_bond_thr t = s.eng_bond_thr t
        ∧ s2.virial_thr t c = s.virial_thr t c
        ∧ s2.eatom_thr t i = s.eatom_thr t i
        ∧ s2.vatom_thr t i c = s.vatom_thr t i c)
    ∧ (ntotalOf style newton newton_bond nlocal nghost ≤ i →
        s2.eatom_thr t i = s.eatom_thr t i ∧ s2.vatom_thr t i c = s.vatom_thr t i c) := by
  subst hs
  unfold ev_setup_thr
  dsimp only
  refine ⟨fun ht => ⟨fun hg => ⟨?_, ?_, ?_⟩, fun hv => ?_, fun he hi => ?_,
      fun hva hi => ?_⟩,
    fun hg => ⟨?_, ?_, ?_⟩, fun hv => ?_, fun he => ?_, fun hva => ?_,
    fun ht => ⟨?_, ?_, ?_, ?_, ?_, ?_⟩, fun hi => ⟨?_, ?_⟩⟩ <;>
    split_ifs <;>
    first
    | rfl
    | simp_all
    | omega

/-- C9 witness: the zeroing/frame property at `PAIR` style, `nthreads = 2`,
`nmax = 4`, `nlocal = nghost = 1`, `force->newton` set, requesting global
and per-atom energy only, at thread 0, row 0, component 2, fresh state. -/
theorem ev_setup_thr_zeroing_witness :
    ((0 : ℕ) < 2 →
      ((true : Bool) = true →
        (ev_setup_thr Style.PAIR 2 4 1 1 true false true false true false
          freshThr).eng_vdwl_thr 0 = 0
        ∧ (ev_setup_thr Style.PAIR 2 4 1 1 true false true false true false
          freshThr).eng_coul_thr 0 = 0
        ∧ (ev_setup_thr Style.PAIR 2 4 1 1 true false true false true false
          freshThr).eng_bond_thr 0 = 0)
      ∧ ((false : Bool) = true → (ev_setup_thr Style.PAIR 2 4 1 1 true false true false true false
          freshThr).virial_thr 0 2 = 0)
      ∧ ((true : Bool) = true → (0 : ℕ) < ntotalOf Style.PAIR true false 1 1 →
          (ev_setup_thr Style.PAIR 2 4 1 1 true false true false true false
          freshThr).eatom_thr 0 0 = 0)
      ∧ ((false : Bool) = true → (0 : ℕ) < ntotalOf Style.PAIR true false 1 1 →
          (ev_setup_thr Style.PAIR 2 4 1 1 true false true false true false
          freshThr).vatom_thr 0 0 2 = 0))
    ∧ ((true : Bool) = false →
        (ev_setup_thr Style.PAIR 2 4 1 1 true false true false true false
          freshThr).eng_vdwl_thr 0 = freshThr.eng_vdwl_thr 0
        ∧ (ev_setup_thr Style.PAIR 2 4 1 1 true false true false true false
          freshThr).eng_coul_thr 0 = freshThr.eng_coul_thr 0
        ∧ (ev_setup_thr Style.PAIR 2 4 1 1 true false true false true false
          freshThr).eng_bond_thr 0 = freshThr.eng_bond_thr 0)
    ∧ ((false : Bool) = false → (ev_setup_thr Style.PAIR 2 4 1 1 true false true false true false
          freshThr).virial_thr 0 2 = freshThr.virial_thr 0 2)
    ∧ ((true : Bool) = false → (ev_setup_thr Style.PAIR 2 4 1 1 true false true false true false
          freshThr).eatom_thr 0 0 = freshThr.eatom_thr 0 0)
    ∧ ((false : Bool) = false → (ev_setup_thr Style.PAIR 2 4 1 1 true false true false true false
          freshThr).vatom_thr 0 0 2 = freshThr.vatom_thr 0 0 2)
    ∧ ((2 : ℕ) ≤ 0 →
        (ev_setup_thr Style.PAIR 2 4 1 1 true false true false true false
          freshThr).eng_vdwl_thr 0 = freshThr.eng_vdwl_thr 0
        ∧ (ev_setup_thr Style.PAIR 2 4 1 1 true false true false true false
          freshThr).eng_coul_thr 0 = freshThr.eng_coul_thr 0
        ∧ (ev_setup_thr Style.PAIR 2 4 1 1 true false true false true false
          freshThr).eng_bond_thr 0 = freshThr.eng_bond_thr 0
        ∧ (ev_setup_thr Style.PAIR 2 4 1 1 true false true false true false
          freshThr).virial_thr 0 2 = freshThr.virial_thr 0 2
        ∧ (ev_setup_thr Style.PAIR 2 4 1 1 true false true false true false
          freshThr).eatom_thr 0 0 = freshThr.eatom_thr 0 0
        ∧ (ev_setup_thr Style.PAIR 2 4 1 1 true false true false true false
          freshThr).vatom_thr 0 0 2 = freshThr.vatom_thr 0 0 2)
    ∧ (ntotalOf Style.PAIR true false 1 1 ≤ 0 →
        (ev_setup_thr Style.PAIR 2 4 1 1 true false true false true false
          freshThr).eatom_thr 0 0 = freshThr.eatom_thr 0 0
        ∧ (ev_setup_thr Style.PAIR 2 4 1 1 true false true false true false
          freshThr).vatom_thr 0 0 2 = freshThr.vatom_thr 0 0 2) :=
  ev_setup_thr_zeroing Style.PAIR 2 4 1 1 true false true false true false
    freshThr _ 0 0 2 rfl

/-- The canonical accumulators of a `Pair` object that `ev_reduce_thr(Pair*)`
folds into, together with the request flags the reducer reads from it. -/
structure PairAcc where
  eng_vdwl : ℝ
  eng_coul : ℝ
  virial   : Fin 6 → ℝ
  eatom    : ℕ → ℝ
  vatom    : ℕ → Fin 6 → ℝ
  vflag_either : Bool
  vflag_atom   : Bool
  eflag_atom   : Bool

/-- The canonical accumulators of a `Dihedral` object that
`ev_reduce_thr(Dihedral*)` folds into, with its request flags. -/
structure DihedralAcc where
  energy : ℝ
  virial : Fin 6 → ℝ
  eatom  : ℕ → ℝ
  vatom  : ℕ → Fin 6 → ℝ
  vflag_either : Bool
  vflag_atom   : Bool
  eflag_atom   : Bool

/-- Body of the thread loop of `ev_reduce_thr(Pair*)`: fold thread `n`'s
slot into the target.  The request flags are read from the target object
`pair0`, which the loop never modifies. -/
def ev_reduce_pair_step (pair0 : PairAcc) (s : ThrState) (ntotal n : ℕ)
    (p : PairAcc) : PairAcc :=
  let p1 := { p with
    eng_vdwl := p.eng_vdwl + s.eng_vdwl_thr n
    eng_coul := p.eng_coul + s.eng_coul_thr n }
  let p2 :=
    if pair0.vflag_either = true then
      let pa := { p1 with virial := fun c => p1.virial c + s.virial_thr n c }
      if pair0.vflag_atom = true then
        { pa with vatom := fun i c =>
            if i < ntotal then pa.vatom i c + s.vatom_thr n i c else pa.vatom i c }
      else pa
    else p1
  if pair0.eflag_atom = true then
    { p2 with eatom := fun i =>
        if i < ntotal then p2.eatom i + s.eatom_thr n i else p2.eatom i }
  else p2

/-- `ThrOMP::ev_reduce_thr(Pair*)`: fold every thread slot into the target,
over extent `nlocal + nghost` when `force->newton` is set, else `nlocal`. -/
def ev_reduce_thr_pair (nthreads nlocal nghost : ℕ) (newton : Bool)
    (s : ThrState) (pair : PairAcc) : PairAcc :=
  let ntotal := if newton = true then nlocal + nghost else nlocal
  (List.range nthreads).foldl (fun p n => ev_reduce_pair_step pair s ntotal n p) pair

/-- Body of the thread loop of `ev_reduce_thr(Dihedral*)`: fold thread `n`'s
slot (`eng_bond_thr` into `energy`) into the target. -/
def ev_reduce_dihed_step (d0 : DihedralAcc) (s : ThrState) (ntotal n : ℕ)
    (d : DihedralAcc) : DihedralAcc :=
  let d1 := { d with energy := d.energy + s.eng_bond_thr n }
  let d2 :=
    if d0.vflag_either = true then
      let da := { d1 with virial := fun c => d1.virial c + s.virial_thr n c }
      if d0.vflag_atom = true then
        { da with vatom := fun i c =>
            if i < ntotal then da.vatom i c + s.vatom_thr n i c else da.vatom i c }
      else da
    else d1
  if d0.eflag_atom = true then
    { d2 with eatom := fun i =>
        if i < ntotal then d2.eatom i + s.eatom_thr n i else d2.eatom i }
  else d2

/-- `ThrOMP::ev_reduce_thr(Dihedral*)`: fold every thread slot into the
target, over extent `nlocal + nghost` when `force->newton_bond` is set,
else `nlocal`. -/
def ev_reduce_thr_dihedral (nthreads nlocal nghost : ℕ) (newton_bond : Bool)
    (s : ThrState) (dihed : DihedralAcc) : DihedralAcc :=
  let ntotal := if newton_bond = true then nlocal + nghost else nlocal
  (List.range nthreads).foldl (fun d n => ev_reduce_dihed_step dihed s ntotal n d) dihed

/-- One reducer step adds thread `n`'s `eng_vdwl_thr` to the target. -/
theorem pair_step_eng_vdwl (pair0 : PairAcc) (s : ThrState) (ntotal n : ℕ) (p : PairAcc) :
    (ev_reduce_pair_step pair0 s ntotal n p).eng_vdwl = p.eng_vdwl + s.eng_vdwl_thr n := by
  unfold ev_reduce_pair_step
  dsimp only
  split_ifs <;> rfl

/-- One reducer step adds thread `n`'s `eng_coul_thr` to the target. -/
theorem pair_step_eng_coul (pair0 : PairAcc) (s : ThrState) (ntotal n : ℕ) (p : PairAcc) :
    (ev_reduce_pair_step pair0 s ntotal n p).eng_coul = p.eng_coul + s.eng_coul_thr n := by
  unfold ev_reduce_pair_step
  dsimp only
  split_ifs <;> rfl

/-- One reducer step adds thread `n`'s virial iff the target requests it. -/
theorem pair_step_virial (pair0 : PairAcc) (s : ThrState) (ntotal n : ℕ) (p : PairAcc)
    (c : Fin 6) :
    (ev_reduce_pair_step pair0 s ntotal n p).virial c =
      if pair0.vflag_either = true then p.virial c + s.virial_thr n c else p.virial c := by
  unfold ev_reduce_pair_step
  dsimp only
  split_ifs <;> rfl

/-- One reducer step adds thread `n`'s per-atom virial row `i` iff requested
and `i` is below the extent. -/
theorem pair_step_vatom (pair0 : PairAcc) (s : ThrState) (ntotal n : ℕ) (p : PairAcc)
    (i : ℕ) (c : Fin 6) :
    (ev_reduce_pair_step pair0 s ntotal n p).vatom i c =
      if pair0.vflag_either = true ∧ pair0.vflag_atom = true ∧ i < ntotal
      then p.vatom i c + s.vatom_thr n i c else p.vatom i c := by
  unfold ev_reduce_pair_step
  dsimp only
  split_ifs <;> simp_all

/-- One reducer step adds thread `n`'s per-atom energy entry `i` iff
requested and `i` is below the extent. -/
theorem pair_step_eatom (pair0 : PairAcc) (s : ThrState) (ntotal n : ℕ) (p : PairAcc)
    (i : ℕ) :
    (ev_reduce_pair_step pair0 s ntotal n p).eatom i =
      if pair0.eflag_atom = true ∧ i < ntotal
      then p.eatom i + s.eatom_thr n i else p.eatom i := by
  unfold ev_reduce_pair_step
  dsimp only
  split_ifs <;> simp_all

/-- One dihedral reducer step adds thread `n`'s `eng_bond_thr`. -/
theorem dihed_step_energy (d0 : DihedralAcc) (s : ThrState) (ntotal n : ℕ) (d : DihedralAcc) :
    (ev_reduce_dihed_step d0 s ntotal n d).energy = d.energy + s.eng_bond_thr n := by
  unfold ev_reduce_dihed_step
  dsimp only
  split_ifs <;> rfl

/-- One dihedral reducer step adds thread `n`'s virial iff requested. -/
theorem dihed_step_virial (d0 : DihedralAcc) (s : ThrState) (ntotal n : ℕ) (d : DihedralAcc)
    (c : Fin 6) :
    (ev_reduce_dihed_step d0 s ntotal n d).virial c =
      if d0.vflag_either = true then d.virial c + s.virial_thr n c else d.virial c := by
  unfold ev_reduce_dihed_step
  dsimp only
  split_ifs <;> rfl

/-- One dihedral reducer step adds thread `n`'s per-atom virial row `i` iff
requested and below the extent. -/
theorem dihed_step_vatom (d0 : DihedralAcc) (s : ThrState) (ntotal n : ℕ) (d : DihedralAcc)
    (i : ℕ) (c : Fin 6) :
    (ev_reduce_dihed_step d0 s ntotal n d).vatom i c =
      if d0.vflag_either = true ∧ d0.vflag_atom = true ∧ i < ntotal
      then d.vatom i c + s.vatom_thr n i c else d.vatom i c := by
  unfold ev_reduce_dihed_step
  dsimp only
  split_ifs <;> simp_all

/-- One dihedral reducer step adds thread `n`'s per-atom energy entry `i`
iff requested and below the extent. -/
theorem dihed_step_eatom (d0 : DihedralAcc) (s : ThrState) (ntotal n : ℕ) (d : DihedralAcc)
    (i : ℕ) :
    (ev_reduce_dihed_step d0 s ntotal n d).eatom i =
      if d0.eflag_atom = true ∧ i < ntotal
      then d.eatom i + s.eatom_thr n i else d.eatom i := by
  unfold ev_reduce_dihed_step
  dsimp only
  split_ifs <;> simp_all

/-- Folding the pair reducer over threads `0..k-1` adds the sum of the
per-thread `eng_vdwl_thr` slots. -/
theorem pair_fold_eng_vdwl (pair0 : PairAcc) (s : ThrState) (ntotal k : ℕ) (p : PairAcc) :
    ((List.range k).foldl (fun q n => ev_reduce_pair_step pair0 s ntotal n q) p).eng_vdwl
      = p.eng_vdwl + ∑ n ∈ Finset.range k, s.eng_vdwl_thr n := by
  induction k with
  | zero => simp
  | succ k ih =>
    rw [List.range_succ, List.foldl_append, List.foldl_cons, List.foldl_nil,
      pair_step_eng_vdwl, ih, Finset.sum_range_succ, add_assoc]

/-- Folding the pair reducer over threads `0..k-1` adds the sum of the
per-thread `eng_coul_thr` slots. -/
theorem pair_fold_eng_coul (pair0 : PairAcc) (s : ThrState) (ntotal k : ℕ) (p : PairAcc) :
    ((List.range k).foldl (fun q n => ev_reduce_pair_step pair0 s ntotal n q) p).eng_coul
      = p.eng_coul + ∑ n ∈ Finset.range k, s.eng_coul_thr n := by
  induction k with
  | zero => simp
  | succ k ih =>
    rw [List.range_succ, List.foldl_append, List.foldl_cons, List.foldl_nil,
      pair_step_eng_coul, ih, Finset.sum_range_succ, add_assoc]

/-- Folding the pair reducer adds the summed per-thread virial iff the
target requests the virial. -/
theorem pair_fold_virial (pair0 : PairAcc) (s : ThrState) (ntotal k : ℕ) (p : PairAcc)
    (c : Fin 6) :
    ((List.range k).foldl (fun q n => ev_reduce_pair_step pair0 s ntotal n q) p).virial c
      = if pair0.vflag_either = true
        then p.virial c + ∑ n ∈ Finset.range k, s.virial_thr n c
        else p.virial c := by
  induction k with
  | zero => simp
  | succ k ih =>
    rw [List.range_succ, List.foldl_append, List.foldl_cons, List.foldl_nil,
      pair_step_virial, ih]
    by_cases h : pair0.vflag_either = true <;>
      simp [h, Finset.sum_range_succ, add_assoc]

/-- Folding the pair reducer adds the summed per-thread per-atom virial at
rows below the extent iff the target requests it. -/
theorem pair_fold_vatom (pair0 : PairAcc) (s : ThrState) (ntotal k : ℕ) (p : PairAcc)
    (i : ℕ) (c : Fin 6) :
    ((List.range k).foldl (fun q n => ev_reduce_pair_step pair0 s ntotal n q) p).vatom i c
      = if pair0.vflag_either = true ∧ pair0.vflag_atom = true ∧ i < ntotal
        then p.vatom i c + ∑ n ∈ Finset.range k, s.vatom_thr n i c
        else p.vatom i c := by
  induction k with
  | zero => simp
  | succ k ih =>
    rw [List.range_succ, List.foldl_append, List.foldl_cons, List.foldl_nil,
      pair_step_vatom, ih]
    by_cases h1 : pair0.vflag_either = true <;>
    by_cases h2 : pair0.vflag_atom = true <;>
    by_cases h3 : i < ntotal <;>
      simp [h1, h2, h3, Finset.sum_range_succ, add_assoc]

/-- Folding the pair reducer adds the summed per-thread per-atom energy at
rows below the extent iff the target requests it. -/
theorem pair_fold_eatom (pair0 : PairAcc) (s : ThrState) (ntotal k : ℕ) (p : PairAcc)
    (i : ℕ) :
    ((List.range k).foldl (fun q n => ev_reduce_pair_step pair0 s ntotal n q) p).eatom i
      = if pair0.eflag_atom = true ∧ i < ntotal
        then p.eatom i + ∑ n ∈ Finset.range k, s.eatom_thr n i
        else p.eatom i := by
  induction k with
  | zero => simp
  | succ k ih =>
    rw [List.range_succ, List.foldl_append, List.foldl_cons, List.foldl_nil,
      pair_step_eatom, ih]
    by_cases h1 : pair0.eflag_atom = true <;>
    by_cases h3 : i < ntotal <;>
      simp [h1, h3, Finset.sum_range_succ, add_assoc]

/-- Folding the dihedral reducer adds the summed per-thread `eng_bond_thr`. -/
theorem dihed_fold_energy (d0 : DihedralAcc) (s : ThrState) (ntotal k : ℕ) (d : DihedralAcc) :
    ((List.range k).foldl (fun q n => ev_reduce_dihed_step d0 s ntotal n q) d).energy
      = d.energy + ∑ n ∈ Finset.range k, s.eng_bond_thr n := by
  induction k with
  | zero => simp
  | succ k ih =>
    rw [List.range_succ, List.foldl_append, List.foldl_cons, List.foldl_nil,
      dihed_step_energy, ih, Finset.sum_range_succ, add_assoc]

/-- Folding the dihedral reducer adds the summed per-thread virial iff the
target requests it. -/
theorem dihed_fold_virial (d0 : DihedralAcc) (s : ThrState) (ntotal k : ℕ) (d : DihedralAcc)
    (c : Fin 6) :
    ((List.range k).foldl (fun q n => ev_reduce_dihed_step d0 s ntotal n q) d).virial c
      = if d0.vflag_either = true
        then d.virial c + ∑ n ∈ Finset.range k, s.virial_thr n c
        else d.virial c := by
  induction k with
  | zero => simp
  | succ k ih =>
    rw [List.range_succ, List.foldl_append, List.foldl_cons, List.foldl_nil,
      dihed_step_virial, ih]
    by_cases h : d0.vflag_either = true <;>
      simp [h, Finset.sum_range_succ, add_assoc]

/-- Folding the dihedral reducer adds the summed per-thread per-atom virial
at rows below the extent iff the target requests it. -/
theorem dihed_fold_vatom (d0 : DihedralAcc) (s : ThrState) (ntotal k : ℕ) (d : DihedralAcc)
    (i : ℕ) (c : Fin 6) :
    ((List.range k).foldl (fun q n => ev_reduce_dihed_step d0 s ntotal n q) d).vatom i c
      = if d0.vflag_either = true ∧ d0.vflag_atom = true ∧ i < ntotal
        then d.vatom i c + ∑ n ∈ Finset.range k, s.vatom_thr n i c
        else d.vatom i c := by
  induction k with
  | zero => simp
  | succ k ih =>
    rw [List.range_succ, List.foldl_append, List.foldl_cons, List.foldl_nil,
      dihed_step_vatom, ih]
    by_cases h1 : d0.vflag_either = true <;>
    by_cases h2 : d0.vflag_atom = true <;>
    by_cases h3 : i < ntotal <;>
      simp [h1, h2, h3, Finset.sum_range_succ, add_assoc]

/-- Folding the dihedral reducer adds the summed per-thread per-atom energy
at rows below the extent iff the target requests it. -/
theorem dihed_fold_eatom (d0 : DihedralAcc) (s : ThrState) (ntotal k : ℕ) (d : DihedralAcc)
    (i : ℕ) :
    ((List.range k).foldl (fun q n => ev_reduce_dihed_step d0 s ntotal n q) d).eatom i
      = if d0.eflag_atom = true ∧ i < ntotal
        then d.eatom i + ∑ n ∈ Finset.range k, s.eatom_thr n i
        else d.eatom i := by
  induction k with
  | zero => simp
  | succ k ih =>
    rw [List.range_succ, List.foldl_append, List.foldl_cons, List.foldl_nil,
      dihed_step_eatom, ih]
    by_cases h1 : d0.eflag_atom = true <;>
    by_cases h3 : i < ntotal <;>
      simp [h1, h3, Finset.sum_range_succ, add_assoc]

/-- C8: both `ev_reduce_thr` variants are purely additive into the target's
pre-existing state.  The `Pair` variant adds every thread's `eng_vdwl_thr`
and `eng_coul_thr` to the target energies; when the target's `vflag_either`
is set it adds each thread's six virial components, when additionally
`vflag_atom` is set it adds the per-atom virial rows over extent
`nlocal+nghost` if `force->newton` is set else `nlocal`, and when
`eflag_atom` is set it adds the per-atom energies over the same extent.
The `Dihedral` variant does the same with `eng_bond_thr` into `energy` and
the extent chosen by `force->newton_bond`.  The target's prior value always
remains a summand. -/
theorem ev_reduce_thr_additive (nthreads nlocal nghost : ℕ) (newton newton_bond : Bool)
    (s : ThrState) (pair : PairAcc) (dihed : DihedralAcc) (i : ℕ) (c : Fin 6) :
    (ev_reduce_thr_pair nthreads nlocal nghost newton s pair).eng_vdwl
      = pair.eng_vdwl + ∑ n ∈ Finset.range nthreads, s.eng_vdwl_thr n
    ∧ (ev_reduce_thr_pair nthreads nlocal nghost newton s pair).eng_coul
      = pair.eng_coul + ∑ n ∈ Finset.range nthreads, s.eng_coul_thr n
    ∧ (pair.vflag_either = true →
        (ev_reduce_thr_pair nthreads nlocal nghost newton s pair).virial c
          = pair.virial c + ∑ n ∈ Finset.range nthreads, s.virial_thr n c)
    ∧ (pair.vflag_either = true → pair.vflag_atom = true →
        i < (if newton = true then nlocal + nghost else nlocal) →
        (ev_reduce_thr_pair nthreads nlocal nghost newton s pair).vatom i c
          = pair.vatom i c + ∑ n ∈ Finset.range nthreads, s.vatom_thr n i c)
    ∧ (pair.eflag_atom = true →
        i < (if newton = true then nlocal + nghost else nlocal) →
        (ev_reduce_thr_pair nthreads nlocal nghost newton s pair).eatom i
          = pair.eatom i + ∑ n ∈ Finset.range nthreads, s.eatom_thr n i)
    ∧ (ev_reduce_thr_dihedral nthreads nlocal nghost newton_bond s dihed).energy
      = dihed.energy + ∑ n ∈ Finset.range nthreads, s.eng_bond_thr n
    ∧ (dihed.vflag_either = true →
        (ev_reduce_thr_dihedral nthreads nlocal nghost newton_bond s dihed).virial c
          = dihed.virial c + ∑ n ∈ Finset.range nthreads, s.virial_thr n c)
    ∧ (dihed.vflag_either = true → dihed.vflag_atom = true →
        i < (if newton_bond = true then nlocal + nghost else nlocal) →
        (ev_reduce_thr_dihedral nthreads nlocal nghost newton_bond s dihed).vatom i c
          = dihed.vatom i c + ∑ n ∈ Finset.range nthreads, s.vatom_thr n i c)
    ∧ (dihed.eflag_atom = true →
        i < (if newton_bond = true then nlocal + nghost else nlocal) →
        (ev_reduce_thr_dihedral nthreads nlocal nghost newton_bond s dihed).eatom i
          = dihed.eatom i + ∑ n ∈ Finset.range nthreads, s.eatom_thr n i) := by
  unfold ev_reduce_thr_pair ev_reduce_thr_dihedral
  dsimp only
  refine ⟨pair_fold_eng_vdwl pair s _ nthreads pair,
    pair_fold_eng_coul pair s _ nthreads pair,
    fun h1 => ?_, fun h1 h2 h3 => ?_, fun h1 h3 => ?_,
    dihed_fold_energy dihed s _ nthreads dihed,
    fun h1 => ?_, fun h1 h2 h3 => ?_, fun h1 h3 => ?_⟩
  · rw [pair_fold_virial, if_pos h1]
  · rw [pair_fold_vatom, if_pos ⟨h1, h2, h3⟩]
  · rw [pair_fold_eatom, if_pos ⟨h1, h3⟩]
  · rw [dihed_fold_virial, if_pos h1]
  · rw [dihed_fold_vatom, if_pos ⟨h1, h2, h3⟩]
  · rw [dihed_fold_eatom, if_pos ⟨h1, h3⟩]

/-- C8 witness: additivity at `nthreads = 2`, `nlocal = nghost = 1`,
`force->newton` set, `force->newton_bond` unset, fresh thread state, and
concrete targets with nonzero prior values and all flags set, at row 0,
component 1. -/
theorem ev_reduce_thr_additive_witness :
    (ev_reduce_thr_pair 2 1 1 true freshThr (⟨1, 2, fun _ => 3, fun _ => 4, fun _ _ => 5, true, true, true⟩ : PairAcc)).eng_vdwl
      = (⟨1, 2, fun _ => 3, fun _ => 4, fun _ _ => 5, true, true, true⟩ : PairAcc).eng_vdwl + ∑ n ∈ Finset.range 2, freshThr.eng_vdwl_thr n
    ∧ (ev_reduce_thr_pair 2 1 1 true freshThr (⟨1, 2, fun _ => 3, fun _ => 4, fun _ _ => 5, true, true, true⟩ : PairAcc)).eng_coul
      = (⟨1, 2, fun _ => 3, fun _ => 4, fun _ _ => 5, true, true, true⟩ : PairAcc).eng_coul + ∑ n ∈ Finset.range 2, freshThr.eng_coul_thr n
    ∧ ((⟨1, 2, fun _ => 3, fun _ => 4, fun _ _ => 5, true, true, true⟩ : PairAcc).vflag_either = true →
        (ev_reduce_thr_pair 2 1 1 true freshThr (⟨1, 2, fun _ => 3, fun _ => 4, fun _ _ => 5, true, true, true⟩ : PairAcc)).virial 1
          = (⟨1, 2, fun _ => 3, fun _ => 4, fun _ _ => 5, true, true, true⟩ : PairAcc).virial 1 + ∑ n ∈ Finset.range 2, freshThr.virial_thr n 1)
    ∧ ((⟨1, 2, fun _ => 3, fun _ => 4, fun _ _ => 5, true, true, true⟩ : PairAcc).vflag_either = true → (⟨1, 2, fun _ => 3, fun _ => 4, fun _ _ => 5, true, true, true⟩ : PairAcc).vflag_atom = true →
        (0 : ℕ) < (if (true : Bool) = true then 1 + 1 else 1) →
        (ev_reduce_thr_pair 2 1 1 true freshThr (⟨1, 2, fun _ => 3, fun _ => 4, fun _ _ => 5, true, true, true⟩ : PairAcc)).vatom 0 1
          = (⟨1, 2, fun _ => 3, fun _ => 4, fun _ _ => 5, true, true, true⟩ : PairAcc).vatom 0 1 + ∑ n ∈ Finset.range 2, freshThr.vatom_thr n 0 1)
    ∧ ((⟨1, 2, fun _ => 3, fun _ => 4, fun _ _ => 5, true, true, true⟩ : PairAcc).eflag_atom = true →
        (0 : ℕ) < (if (true : Bool) = true then 1 + 1 else 1) →
        (ev_reduce_thr_pair 2 1 1 true freshThr (⟨1, 2, fun _ => 3, fun _ => 4, fun _ _ => 5, true, true, true⟩ : PairAcc)).eatom 0
          = (⟨1, 2, fun _ => 3, fun _ => 4, fun _ _ => 5, true, true, true⟩ : PairAcc).eatom 0 + ∑ n ∈ Finset.range 2, freshThr.eatom_thr n 0)
    ∧ (ev_reduce_thr_dihedral 2 1 1 false freshThr (⟨6, fun _ => 7, fun _ => 8, fun _ _ => 9, true, true, true⟩ : DihedralAcc)).energy
      = (⟨6, fun _ => 7, fun _ => 8, fun _ _ => 9, true, true, true⟩ : DihedralAcc).energy + ∑ n ∈ Finset.range 2, freshThr.eng_bond_thr n
    ∧ ((⟨6, fun _ => 7, fun _ => 8, fun _ _ => 9, true, true, true⟩ : DihedralAcc).vflag_either = true →
        (ev_reduce_thr_dihedral 2 1 1 false freshThr (⟨6, fun _ => 7, fun _ => 8, fun _ _ => 9, true, true, true⟩ : DihedralAcc)).virial 1
          = (⟨6, fun _ => 7, fun _ => 8, fun _ _ => 9, true, true, true⟩ : DihedralAcc).virial 1 + ∑ n ∈ Finset.range 2, freshThr.virial_thr n 1)
    ∧ ((⟨6, fun _ => 7, fun _ => 8, fun _ _ => 9, true, true, true⟩ : DihedralAcc).vflag_either = true → (⟨6, fun _ => 7, fun _ => 8, fun _ _ => 9, true, true, true⟩ : DihedralAcc).vflag_atom = true →
        (0 : ℕ) < (if (false : Bool) = true then 1 + 1 else 1) →
        (ev_reduce_thr_dihedral 2 1 1 false freshThr (⟨6, fun _ => 7, fun _ => 8, fun _ _ => 9, true, true, true⟩ : DihedralAcc)).vatom 0 1
          = (⟨6, fun _ => 7, fun _ => 8, fun _ _ => 9, true, true, true⟩ : DihedralAcc).vatom 0 1 + ∑ n ∈ Finset.range 2, freshThr.vatom_thr n 0 1)
    ∧ ((⟨6, fun _ => 7, fun _ => 8, fun _ _ => 9, true, true, true⟩ : DihedralAcc).eflag_atom = true →
        (0 : ℕ) < (if (false : Bool) = true then 1 + 1 else 1) →
        (ev_reduce_thr_dihedral 2 1 1 false freshThr (⟨6, fun _ => 7, fun _ => 8, fun _ _ => 9, true, true, true⟩ : DihedralAcc)).eatom 0
          = (⟨6, fun _ => 7, fun _ => 8, fun _ _ => 9, true, true, true⟩ : DihedralAcc).eatom 0 + ∑ n ∈ Finset.range 2, freshThr.eatom_thr n 0) :=
  ev_reduce_thr_additive 2 1 1 true false freshThr
    (⟨1, 2, fun _ => 3, fun _ => 4, fun _ _ => 5, true, true, true⟩ : PairAcc)
    (⟨6, fun _ => 7, fun _ => 8, fun _ _ => 9, true, true, true⟩ : DihedralAcc)
    0 1

/-- One row of the shared force buffer: the three force components
`(x, y, z)`. -/
abbrev V3 := ℝ × ℝ × ℝ

/-- Body of the inner `m` loop of `force_reduce_thr` for source block `n`,
row `m`: `fall[m][0..2] += f[m][0..2]; f[m][0..2] = 0.0;`.  The flat buffer
`fall` (block `n` at offset `n*nall`) is viewed as a block/row map
`g : block → row → V3`: block 0's row `m` gains block `n`'s row `m`, which
is zeroed in place. -/
def frInner (n m : ℕ) (g : ℕ → ℕ → V3) : ℕ → ℕ → V3 :=
  fun b r =>
    if b = n ∧ r = m then 0
    else if b = 0 ∧ r = m then g 0 m + g n m
    else g b r

/-- `ThrOMP::force_reduce_thr` executed by thread `tid` (the code after the
barrier): a no-op when `nthreads == 1`; otherwise, for the thread's own row
range `[ifrom, ito)` with `idelta = 1 + nall/nthreads`, add every source
block `n = 1 .. nthreads-1` into block 0 and zero it. -/
def force_reduce_thr (nall nthreads tid : ℕ) (g : ℕ → ℕ → V3) : ℕ → ℕ → V3 :=
  if nthreads = 1 then g
  else
    let idelta := 1 + nall / nthreads
    let ifrom := tid * idelta
    let ito := if nall < ifrom + idelta then nall else ifrom + idelta
    (List.range' 1 (nthreads - 1)).foldl
      (fun h n => (List.range' ifrom (ito - ifrom)).foldl (fun h2 m => frInner n m h2) h) g

/-- All `nthreads` threads execute `force_reduce_thr` after the barrier;
their row ranges are disjoint, so the concurrent execution is modelled as
the sequential composition over `tid = 0 .. nthreads-1`. -/
def force_reduce_all (nall nthreads : ℕ) (g : ℕ → ℕ → V3) : ℕ → ℕ → V3 :=
  (List.range nthreads).foldl (fun h tid => force_reduce_thr nall nthreads tid h) g

/-- Effect of the inner row loop for a single source block `a ≥ 1` over rows
`[s, s+len)`: block 0's rows in range gain block `a`'s row, block `a`'s rows
in range become 0, and every other cell is untouched. -/
theorem frInner_fold (a : ℕ) (ha : 1 ≤ a) (len : ℕ) :
    ∀ (s : ℕ) (h : ℕ → ℕ → V3) (b r : ℕ),
    ((List.range' s len).foldl (fun h2 m => frInner a m h2) h) b r
      = if b = a ∧ s ≤ r ∧ r < s + len then 0
        else if b = 0 ∧ s ≤ r ∧ r < s + len then h 0 r + h a r
        else h b r := by
  induction len with
  | zero =>
    intro s h b r
    simp only [List.range'_zero, List.foldl_nil]
    split_ifs <;> first | rfl | omega
  | succ len ih =>
    intro s h b r
    rw [List.range'_succ, List.foldl_cons, ih]
    simp only [frInner]
    split_ifs <;> first | rfl | omega | simp_all

/-- Effect of the full block loop (source blocks `1 .. p`) over the row
range `[ifrom, ito)`: block 0's rows in range accumulate the sum of all
source blocks' rows, the source blocks' rows in range become 0, and every
other cell is untouched. -/
theorem frBlocks_fold (ifrom ito : ℕ) (p : ℕ) :
    ∀ (h : ℕ → ℕ → V3) (b r : ℕ),
    ((List.range' 1 p).foldl
        (fun h' n =>
          (List.range' ifrom (ito - ifrom)).foldl (fun h2 m => frInner n m h2) h') h) b r
      = if b = 0 ∧ ifrom ≤ r ∧ r < ifrom + (ito - ifrom) then
          h 0 r + ∑ n ∈ Finset.range p, h (n + 1) r
        else if 1 ≤ b ∧ b ≤ p ∧ ifrom ≤ r ∧ r < ifrom + (ito - ifrom) then 0
        else h b r := by
  induction p with
  | zero =>
    intro h b r
    simp only [List.range'_zero, List.foldl_nil, Finset.range_zero, Finset.sum_empty]
    split_ifs <;> first | rfl | omega | simp_all
  | succ p ih =>
    intro h b r
    rw [List.range'_concat, List.foldl_append, List.foldl_cons, List.foldl_nil]
    simp only [Nat.one_mul]
    rw [Nat.add_comm 1 p]
    rw [frInner_fold (p + 1) (by omega)]
    simp only [ih]
    split_ifs <;>
      first
      | rfl
      | omega
      | simp_all [Finset.sum_range_succ, add_assoc]

/-- Pointwise effect of one thread's `force_reduce_thr` call (multi-thread
path): its chunk of rows is `[tid*idelta, min nall (tid*idelta + idelta))`
with `idelta = 1 + nall/nthreads`; block 0's rows in the chunk accumulate
all source blocks, source blocks' rows in the chunk become 0, the rest is
untouched. -/
theorem force_reduce_thr_apply (nall nthreads tid : ℕ) (hn : 2 ≤ nthreads)
    (g : ℕ → ℕ → V3) (b r : ℕ) :
    force_reduce_thr nall nthreads tid g b r
      = if b = 0 ∧ tid * (1 + nall / nthreads) ≤ r ∧ r < nall
            ∧ r < tid * (1 + nall / nthreads) + (1 + nall / nthreads) then
          g 0 r + ∑ n ∈ Finset.range (nthreads - 1), g (n + 1) r
        else if 1 ≤ b ∧ b ≤ nthreads - 1 ∧ tid * (1 + nall / nthreads) ≤ r ∧ r < nall
            ∧ r < tid * (1 + nall / nthreads) + (1 + nall / nthreads) then 0
        else g b r := by
  unfold force_reduce_thr
  rw [if_neg (by omega : ¬nthreads = 1)]
  rw [frBlocks_fold]
  split_ifs <;> first | rfl | omega

/-- Block 0's row plus the sum of the source blocks' rows is the sum over
all blocks. -/
theorem sum_blocks_split (g : ℕ → ℕ → V3) (r m : ℕ) :
    g 0 r + ∑ n ∈ Finset.range m, g (n + 1) r = ∑ n ∈ Finset.range (m + 1), g n r := by
  rw [Finset.sum_range_succ']
  exact add_comm _ _

/-- After the threads `0 .. t-1` have each run `force_reduce_thr`, the rows
below `nall` and below `t * idelta` are fully reduced (block 0 holds the sum
of all blocks, source blocks hold 0) and all other cells are untouched. -/
theorem force_reduce_all_fold (nall nthreads : ℕ) (hn : 2 ≤ nthreads)
    (g : ℕ → ℕ → V3) :
    ∀ (t b r : ℕ),
    ((List.range t).foldl (fun h tid => force_reduce_thr nall nthreads tid h) g) b r
      = if b = 0 ∧ r < nall ∧ r < t * (1 + nall / nthreads) then
          ∑ n ∈ Finset.range nthreads, g n r
        else if 1 ≤ b ∧ b ≤ nthreads - 1 ∧ r < nall ∧ r < t * (1 + nall / nthreads) then 0
        else g b r := by
  intro t
  induction t with
  | zero =>
    intro b r
    simp only [List.range_zero, List.foldl_nil, Nat.zero_mul]
    split_ifs <;> first | rfl | omega
  | succ t ih =>
    intro b r
    rw [List.range_succ, List.foldl_append, List.foldl_cons, List.foldl_nil]
    rw [force_reduce_thr_apply nall nthreads t hn]
    have hd : (t + 1) * (1 + nall / nthreads)
        = t * (1 + nall / nthreads) + (1 + nall / nthreads) := Nat.succ_mul t _
    rw [hd]
    by_cases h1 : r < nall
    · by_cases h2 : r < t * (1 + nall / nthreads)
      · rw [if_neg (by omega), if_neg (by omega), ih]
        generalize hq : nall / nthreads = q at h2 ⊢
        split_ifs <;> first | rfl | omega
      · have hsimp : ∀ b' : ℕ,
            ((List.range t).foldl (fun h tid => force_reduce_thr nall nthreads tid h) g) b' r
              = g b' r := fun b' => by
          rw [ih, if_neg (by omega), if_neg (by omega)]
        simp only [hsimp]
        have hnt : nthreads - 1 + 1 = nthreads := by omega
        generalize hq : nall / nthreads = q at h2 ⊢
        split_ifs <;> first | rfl | omega | rw [sum_blocks_split, hnt]
    · have hsimp : ∀ b' : ℕ,
          ((List.range t).foldl (fun h tid => force_reduce_thr nall nthreads tid h) g) b' r
            = g b' r := fun b' => by
        rw [ih, if_neg (by omega), if_neg (by omega)]
      simp only [hsimp]
      split_ifs <;> first | rfl | omega

/-- C5: `force_reduce_thr` is a no-op when `nthreads == 1`; for
`nthreads ≥ 2`, after every thread has executed it (sequential composition
of the disjoint per-thread row ranges after the barrier), block 0's row `r`
holds the pre-reduction sum of all `nthreads` blocks' rows (the three
components combined independently, componentwise on `V3`), every row of
blocks `1 .. nthreads-1` is zero, and a second immediate invocation leaves
block 0 unchanged — it never double-adds. -/
theorem force_reduce_thr_correct (nall nthreads tid b r : ℕ) (g : ℕ → ℕ → V3)
    (hn : 2 ≤ nthreads) :
    force_reduce_thr nall 1 tid g = g
    ∧ (r < nall →
        force_reduce_all nall nthreads g 0 r = ∑ n ∈ Finset.range nthreads, g n r)
    ∧ (r < nall → 1 ≤ b → b ≤ nthreads - 1 →
        force_reduce_all nall nthreads g b r = 0)
    ∧ (r < nall →
        force_reduce_all nall nthreads (force_reduce_all nall nthreads g) 0 r
          = force_reduce_all nall nthreads g 0 r) := by
  have hbound : nall < nthreads * (1 + nall / nthreads) :=
    lt_nthreads_mul_chunk nall nthreads (by omega)
  have hmain : ∀ (g' : ℕ → ℕ → V3) (b' r' : ℕ), r' < nall →
      force_reduce_all nall nthreads g' b' r' =
        if b' = 0 then ∑ n ∈ Finset.range nthreads, g' n r'
        else if 1 ≤ b' ∧ b' ≤ nthreads - 1 then 0 else g' b' r' := by
    intro g' b' r' hr
    unfold force_reduce_all
    rw [force_reduce_all_fold nall nthreads hn g' nthreads b' r']
    split_ifs <;> first | rfl | omega
  refine ⟨rfl, ?_, ?_, ?_⟩
  · intro hr
    rw [hmain g 0 r hr, if_pos rfl]
  · intro hr hb1 hb2
    rw [hmain g b r hr, if_neg (by omega), if_pos ⟨hb1, hb2⟩]
  · intro hr
    rw [hmain (force_reduce_all nall nthreads g) 0 r hr, if_pos rfl]
    have hz : ∀ n ∈ Finset.range nthreads, n ≠ 0 →
        force_reduce_all nall nthreads g n r = 0 := by
      intro n hmem hne
      have hlt := Finset.mem_range.mp hmem
      rw [hmain g n r hr, if_neg hne, if_pos ⟨by omega, by omega⟩]
    rw [Finset.sum_eq_single 0 hz
      (fun h0 => absurd (Finset.mem_range.mpr (by omega)) h0)]

/-- C5 witness: the reduction property at `nall = 1`, `nthreads = 2`,
`tid = 0`, block `b = 1`, row `r = 0`, and the constant buffer whose every
row is `(1, 2, 3)`. -/
theorem force_reduce_thr_correct_witness :
    force_reduce_thr 1 1 0 (fun _ _ => ((1 : ℝ), 2, 3)) = (fun _ _ => ((1 : ℝ), 2, 3))
    ∧ ((0 : ℕ) < 1 →
        force_reduce_all 1 2 (fun _ _ => ((1 : ℝ), 2, 3)) 0 0
          = ∑ n ∈ Finset.range 2, (fun _ _ => ((1 : ℝ), 2, 3)) n 0)
    ∧ ((0 : ℕ) < 1 → 1 ≤ 1 → 1 ≤ 2 - 1 →
        force_reduce_all 1 2 (fun _ _ => ((1 : ℝ), 2, 3)) 1 0 = 0)
    ∧ ((0 : ℕ) < 1 →
        force_reduce_all 1 2 (force_reduce_all 1 2 (fun _ _ => ((1 : ℝ), 2, 3))) 0 0
          = force_reduce_all 1 2 (fun _ _ => ((1 : ℝ), 2, 3)) 0 0) :=
  force_reduce_thr_correct 1 2 0 1 0 (fun _ _ => ((1 : ℝ), 2, 3)) (by decide)

end ThrOMP
